import Mathlib

/-!
# Verification of the azurerm provider slice

Shallow embedding of the App Service plan SKU classifier
(`internal/services/appservice/helpers/service_plan.go`), the Service Bus
subscription data-source read logic
(`internal/services/servicebus/servicebus_subscription_data_source.go`), the
Purview account read error handling, and the topic-identifier codec consumed
by the Service Bus adapter, together with theorems settling the spec claims.
-/

namespace AzureRM

/-! ## Case folding

Go compares SKU codes with `strings.EqualFold`, which matches characters
lying in the same Unicode simple-case-fold orbit. Every table entry is
plain ASCII, and the only Unicode simple-fold orbits that contain an ASCII
character are the ASCII letter pairs plus two extras: U+017F LATIN SMALL
LETTER LONG S folds with S/s and U+212A KELVIN SIGN folds with K/k. The
fold is therefore modelled by canonicalizing exactly those orbits to the
lower-case ASCII letter; characters of orbits disjoint from ASCII are kept
as they are, which cannot change any comparison against an ASCII table
entry.
-/

/-- One character folded to the canonical element of its case-fold orbit,
for every orbit that meets ASCII: ASCII letters fold to lower case,
U+017F folds to 's', U+212A folds to 'k'. -/
def foldChar (c : Char) : Char :=
  if c.toNat = 0x17F then 's'
  else if c.toNat = 0x212A then 'k'
  else c.toLower

/-- A string's character data with every character case-folded. -/
def foldStr (s : String) : List Char := s.data.map foldChar

/-- Model of Go `strings.EqualFold`: equality after case folding. It
agrees with Go on every comparison the classifier performs, i.e. against
an ASCII table entry, for arbitrary (also non-ASCII) input. -/
def eqFold (s t : String) : Bool := foldStr s == foldStr t

/-! ## SKU tables (`service_plan.go` lines 17-67) -/

def ServicePlanTypeAppPlan : String := "app"
def ServicePlanTypeConsumption : String := "consumption"
def ServicePlanTypeElastic : String := "elastic"
def ServicePlanTypeFlexConsumption : String := "flexconsumption"
def ServicePlanTypeIsolated : String := "isolated"
def ServicePlanTypePremium : String := "premium"
def ServicePlanTypeWorkflow : String := "workflow"

def appServicePlanSkus : List String :=
  ["B1", "B2", "B3", "S1", "S2", "S3"]

def freeSkus : List String := ["F1"]

def sharedSkus : List String := ["D1", "SHARED"]

def consumptionSkus : List String := ["Y1"]

def premiumSkus : List String :=
  ["P1v2", "P2v2", "P3v2",
   "P0v3", "P1v3", "P2v3", "P3v3",
   "P1mv3", "P2mv3", "P3mv3", "P4mv3", "P5mv3"]

def flexConsumptionSkus : List String := ["FC1"]

def elasticSkus : List String := ["EP1", "EP2", "EP3"]

def isolatedSkus : List String :=
  ["I1", "I2", "I3",
   "I1v2", "I2v2", "I3v2", "I4v2", "I5v2", "I6v2",
   "I1mv2", "I2mv2", "I3mv2", "I4mv2", "I5mv2"]

def workflowSkus : List String := ["WS1", "WS2", "WS3"]

/-- `AllKnownServicePlanSkus` (`service_plan.go` lines 70-83). -/
def AllKnownServicePlanSkus : List String :=
  appServicePlanSkus ++ consumptionSkus ++ elasticSkus ++ flexConsumptionSkus ++
    freeSkus ++ isolatedSkus ++ premiumSkus ++ sharedSkus ++ workflowSkus

/-! ## Membership predicates (`service_plan.go` lines 85-174)

The Go predicates taking `*string` are modelled on `Option String`
(`none` for a nil pointer). -/

def PlanIsConsumption (input : Option String) : Bool :=
  match input with
  | none => false
  | some s => consumptionSkus.any (fun v => eqFold s v)

def PlanIsPremium (input : String) : Bool :=
  if input = "" then false
  else premiumSkus.any (fun v => eqFold input v)

def PlanIsFlexConsumption (input : Option String) : Bool :=
  match input with
  | none => false
  | some s => flexConsumptionSkus.any (fun v => eqFold s v)

def PlanIsElastic (input : Option String) : Bool :=
  match input with
  | none => false
  | some s => elasticSkus.any (fun v => eqFold s v)

def PlanIsIsolated (input : Option String) : Bool :=
  match input with
  | none => false
  | some s => isolatedSkus.any (fun v => eqFold s v)

def PlanIsAppPlan (input : Option String) : Bool :=
  match input with
  | none => false
  | some s => appServicePlanSkus.any (fun v => eqFold s v)

def PlanIsWorkflow (input : Option String) : Bool :=
  match input with
  | none => false
  | some s => workflowSkus.any (fun v => eqFold s v)

/-- `PlanTypeFromSku` (`service_plan.go` lines 176-206): the chain of
category tests in source order, falling through to `"unknown"`. -/
def PlanTypeFromSku (input : String) : String :=
  if PlanIsPremium input then ServicePlanTypePremium
  else if PlanIsWorkflow (some input) then ServicePlanTypeWorkflow
  else if PlanIsConsumption (some input) then ServicePlanTypeConsumption
  else if PlanIsFlexConsumption (some input) then ServicePlanTypeFlexConsumption
  else if PlanIsElastic (some input) then ServicePlanTypeElastic
  else if PlanIsIsolated (some input) then ServicePlanTypeIsolated
  else if PlanIsAppPlan (some input) then ServicePlanTypeAppPlan
  else "unknown"

/-- `PlanSupportsZoneBalancing` (`service_plan.go` lines 208-215). -/
def PlanSupportsZoneBalancing (input : String) : Bool :=
  let t := PlanTypeFromSku input
  t == ServicePlanTypePremium || t == ServicePlanTypeElastic ||
    t == ServicePlanTypeWorkflow || t == ServicePlanTypeConsumption ||
    t == ServicePlanTypeFlexConsumption || t == ServicePlanTypeIsolated

/-- Model of Go `strings.HasPrefix` on the character data (the prefixes in
use are ASCII, where byte prefixing and character prefixing agree). -/
def hasPrefix (s pre : String) : Bool := pre.data.isPrefixOf s.data

/-- `PlanSupportsScaleOut` (`service_plan.go` lines 217-219): a raw,
case-sensitive prefix test on the plan string. -/
def PlanSupportsScaleOut (plan : String) : Bool :=
  hasPrefix plan "EP" || hasPrefix plan "WS"

/-! ## Spec-side ordered classifier

The spec describes `ClassifyPlan` as a first-match scan over an explicit
ordered list of (predicate, category) pairs; this definition follows those
words, to be compared with `PlanTypeFromSku` above. -/

/-- First-match evaluation of an ordered (predicate, category) list,
falling through to `"unknown"`. -/
def firstMatch : List ((String → Bool) × String) → String → String
  | [], _ => "unknown"
  | (p, tag) :: rest, s => if p s then tag else firstMatch rest s

/-- The spec's priority order: premium, workflow, consumption,
flex-consumption, elastic, isolated, app-plan. -/
def categoryChecks : List ((String → Bool) × String) :=
  [(fun s => PlanIsPremium s, ServicePlanTypePremium),
   (fun s => PlanIsWorkflow (some s), ServicePlanTypeWorkflow),
   (fun s => PlanIsConsumption (some s), ServicePlanTypeConsumption),
   (fun s => PlanIsFlexConsumption (some s), ServicePlanTypeFlexConsumption),
   (fun s => PlanIsElastic (some s), ServicePlanTypeElastic),
   (fun s => PlanIsIsolated (some s), ServicePlanTypeIsolated),
   (fun s => PlanIsAppPlan (some s), ServicePlanTypeAppPlan)]

/-! ## Topic identifier codec

`subscriptions.ParseTopicID` and the identifier's `ID()` formatter live in
the `go-azure-sdk` dependency, not in this repository slice.

Modelled from the spec: the Resource Identifier Codec of spec section 4.1 —
`Parse` splits the path on `/`, validates the alternating keyword/value
structure with case-insensitive keyword matching, requires every value
segment non-empty, and returns no partial result on failure; `Format`
rebuilds the canonical path from fixed keyword literals and the field
values in fixed order. The shape instantiated here is the Service Bus
topic path
`/subscriptions/{sub}/resourceGroups/{rg}/providers/Microsoft.ServiceBus/namespaces/{ns}/topics/{name}`. -/

structure TopicId where
  subscriptionId : String
  resourceGroupName : String
  namespaceName : String
  topicName : String
deriving DecidableEq

/-- Case-folded equality of raw character segments (keyword matching). -/
def eqFoldL (a b : List Char) : Bool := a.map foldChar == b.map foldChar

/-- Split a character list on `'/'` separators (like Go `strings.Split`);
always returns at least one segment. -/
def splitSlash : List Char → List (List Char)
  | [] => [[]]
  | c :: cs =>
    if c = '/' then [] :: splitSlash cs
    else
      match splitSlash cs with
      | [] => [[c]]
      | seg :: rest => (c :: seg) :: rest

/-- Join segments with `'/'` separators (inverse of `splitSlash` on
slash-free segments). -/
def joinSegs : List (List Char) → List Char
  | [] => []
  | [x] => x
  | x :: y :: xs => x ++ '/' :: joinSegs (y :: xs)

/-- Parse the eleven segments of a topic path: keyword segments matched
case-insensitively, value segments required non-empty. -/
def parseSegs : List (List Char) → Option TopicId
  | [root, kSub, sub, kRg, rg, kProv, prov, kNs, ns, kTop, top] =>
    if root = [] ∧
       eqFoldL kSub "subscriptions".data = true ∧ sub ≠ [] ∧
       eqFoldL kRg "resourceGroups".data = true ∧ rg ≠ [] ∧
       eqFoldL kProv "providers".data = true ∧
       eqFoldL prov "Microsoft.ServiceBus".data = true ∧
       eqFoldL kNs "namespaces".data = true ∧ ns ≠ [] ∧
       eqFoldL kTop "topics".data = true ∧ top ≠ [] then
      some ⟨String.mk sub, String.mk rg, String.mk ns, String.mk top⟩
    else none
  | _ => none

/-- Model of `subscriptions.ParseTopicID`. -/
def parseTopicID (s : String) : Option TopicId :=
  parseSegs (splitSlash s.data)

/-- Model of the topic identifier's canonical formatter (`ID()`). -/
def formatTopicID (t : TopicId) : String :=
  String.mk (joinSegs
    [[], "subscriptions".data, t.subscriptionId.data,
     "resourceGroups".data, t.resourceGroupName.data,
     "providers".data, "Microsoft.ServiceBus".data,
     "namespaces".data, t.namespaceName.data,
     "topics".data, t.topicName.data])

/-- An identifier whose fields are non-empty path segments (no separator
inside a field), as the spec's data-model invariant requires. -/
def wfTopicId (t : TopicId) : Prop :=
  t.subscriptionId ≠ "" ∧ '/' ∉ t.subscriptionId.data ∧
  t.resourceGroupName ≠ "" ∧ '/' ∉ t.resourceGroupName.data ∧
  t.namespaceName ≠ "" ∧ '/' ∉ t.namespaceName.data ∧
  t.topicName ≠ "" ∧ '/' ∉ t.topicName.data

instance (t : TopicId) : Decidable (wfTopicId t) := by
  unfold wfTopicId; infer_instance

/-- The `i`-th segment of a split path (`[]` when out of range). -/
def seg (segs : List (List Char)) (i : Nat) : List Char := segs.getD i []

/-- The spec's structural validity of a topic path, in the spec's own
terms: right segment count, each keyword segment matching its literal
case-insensitively, each value segment non-empty. -/
def structValidSpec (P : String) : Prop :=
  let segs := splitSlash P.data
  segs.length = 11 ∧ seg segs 0 = [] ∧
  eqFoldL (seg segs 1) "subscriptions".data = true ∧ seg segs 2 ≠ [] ∧
  eqFoldL (seg segs 3) "resourceGroups".data = true ∧ seg segs 4 ≠ [] ∧
  eqFoldL (seg segs 5) "providers".data = true ∧
  eqFoldL (seg segs 6) "Microsoft.ServiceBus".data = true ∧
  eqFoldL (seg segs 7) "namespaces".data = true ∧ seg segs 8 ≠ [] ∧
  eqFoldL (seg segs 9) "topics".data = true ∧ seg segs 10 ≠ []

instance (P : String) : Decidable (structValidSpec P) := by
  unfold structValidSpec; infer_instance

/-! ## Service Bus subscription data-source read
(`servicebus_subscription_data_source.go` lines 134-159)

The read resolves the resource group, namespace and topic names that go
into `NewSubscriptions2ID`. Embedded as a function of the feature flag
`features.FivePointOh()` and the four relevant configuration fields,
returning the resolved `(resource group, namespace, topic)` triple or the
parse error. -/

def resolveSubscriptionTopic (fivePointOh : Bool)
    (topicIdField rgField nsField topicNameField : String) :
    Except String (String × String × String) :=
  -- var rgName, nsName, topicName string (zero values "")
  let rgName := ""
  let nsName := ""
  let topicName := ""
  if topicIdField ≠ "" then
    match parseTopicID topicIdField with
    | none => .error "parsing topic ID"
    | some topicId =>
      let rgName := topicId.resourceGroupName
      let nsName := topicId.namespaceName
      let topicName := topicId.topicName
      if ¬fivePointOh ∧ topicId.subscriptionId = "" then
        .ok (rgField, nsField, topicNameField)
      else
        .ok (rgName, nsName, topicName)
  else
    .ok (rgName, nsName, topicName)

/-! ## Purview account read (`src/unnamed/part_001` lines 173-220)

The read's control flow over the remote calls, embedded by passing the
outcome of each call explicitly. `client.Get` either succeeds, fails with
a response Azure marked not-found, or fails otherwise; `parse.AccountID`
of the stored ID and `client.ListKeys` each succeed or fail. The result is
the stored ID after the call and whether a non-nil error was returned. -/

inductive FetchOutcome where
  | ok
  | errNotFound
  | errOther
deriving DecidableEq

def resourcePurviewAccountRead (storedId : String) (parseOk : Bool)
    (get : FetchOutcome) (listKeysOk : Bool) : String × Bool :=
  if ¬parseOk then (storedId, true)
  else
    match get with
    | .errNotFound => ("", false)   -- d.SetId(""); return nil
    | .errOther => (storedId, true) -- return the retrieval error
    | .ok => if ¬listKeysOk then (storedId, true) else (storedId, false)

/-! ## Helper lemmas -/

lemma string_eq_empty_iff (s : String) : s = "" ↔ s.data = [] := by
  constructor
  · intro h; subst h; rfl
  · intro h
    apply String.ext
    rw [h]

lemma foldStr_eq_nil_iff (s : String) : foldStr s = [] ↔ s = "" := by
  rw [string_eq_empty_iff]
  unfold foldStr
  exact List.map_eq_nil_iff

lemma any_eqFold_congr (l : List String) {c c' : String}
    (h : foldStr c = foldStr c') :
    (l.any fun v => eqFold c v) = (l.any fun v => eqFold c' v) := by
  simp only [eqFold, h]

lemma planIsPremium_congr {c c' : String} (h : foldStr c = foldStr c') :
    PlanIsPremium c = PlanIsPremium c' := by
  have hiff : c = "" ↔ c' = "" := by
    rw [← foldStr_eq_nil_iff, ← foldStr_eq_nil_iff, h]
  unfold PlanIsPremium
  by_cases hc : c = ""
  · rw [if_pos hc, if_pos (hiff.mp hc)]
  · rw [if_neg hc, if_neg (fun he => hc (hiff.mpr he))]
    exact any_eqFold_congr _ h

lemma planIsWorkflow_congr {c c' : String} (h : foldStr c = foldStr c') :
    PlanIsWorkflow (some c) = PlanIsWorkflow (some c') :=
  any_eqFold_congr _ h

lemma planIsConsumption_congr {c c' : String} (h : foldStr c = foldStr c') :
    PlanIsConsumption (some c) = PlanIsConsumption (some c') :=
  any_eqFold_congr _ h

lemma planIsFlexConsumption_congr {c c' : String} (h : foldStr c = foldStr c') :
    PlanIsFlexConsumption (some c) = PlanIsFlexConsumption (some c') :=
  any_eqFold_congr _ h

lemma planIsElastic_congr {c c' : String} (h : foldStr c = foldStr c') :
    PlanIsElastic (some c) = PlanIsElastic (some c') :=
  any_eqFold_congr _ h

lemma planIsIsolated_congr {c c' : String} (h : foldStr c = foldStr c') :
    PlanIsIsolated (some c) = PlanIsIsolated (some c') :=
  any_eqFold_congr _ h

lemma planIsAppPlan_congr {c c' : String} (h : foldStr c = foldStr c') :
    PlanIsAppPlan (some c) = PlanIsAppPlan (some c') :=
  any_eqFold_congr _ h

lemma planTypeFromSku_congr {c c' : String} (h : foldStr c = foldStr c') :
    PlanTypeFromSku c = PlanTypeFromSku c' := by
  unfold PlanTypeFromSku
  rw [planIsPremium_congr h, planIsWorkflow_congr h, planIsConsumption_congr h,
    planIsFlexConsumption_congr h, planIsElastic_congr h, planIsIsolated_congr h,
    planIsAppPlan_congr h]

lemma eqFold_false_of_highFold {c : String} {ch : Char} (hm : ch ∈ c.data)
    (hh : 128 ≤ (foldChar ch).toNat) {v : String}
    (hv : ∀ x ∈ foldStr v, x.toNat < 128) : eqFold c v = false := by
  rw [eqFold, beq_eq_false_iff_ne]
  intro he
  have hmem : foldChar ch ∈ foldStr v := by
    rw [← he]
    exact List.mem_map_of_mem _ hm
  have := hv _ hmem
  omega

lemma any_eqFold_false_of_highFold {c : String} {ch : Char} (hm : ch ∈ c.data)
    (hh : 128 ≤ (foldChar ch).toNat) (tbl : List String)
    (htbl : ∀ v ∈ tbl, ∀ x ∈ foldStr v, x.toNat < 128) :
    (tbl.any fun v => eqFold c v) = false := by
  rw [List.any_eq_false]
  intro v hv
  simp [eqFold_false_of_highFold hm hh (htbl v hv)]

/-- A code containing a character whose case-fold orbit never meets ASCII
matches no table (all entries are ASCII) and classifies "unknown". -/
lemma planTypeFromSku_unknown_of_highFold {c : String} {ch : Char}
    (hm : ch ∈ c.data) (hh : 128 ≤ (foldChar ch).toNat) :
    PlanTypeFromSku c = "unknown" := by
  have hprem : PlanIsPremium c = false := by
    unfold PlanIsPremium
    by_cases hc : c = ""
    · rw [if_pos hc]
    · rw [if_neg hc]
      exact any_eqFold_false_of_highFold hm hh premiumSkus (by decide)
  have hwork : PlanIsWorkflow (some c) = false :=
    any_eqFold_false_of_highFold hm hh workflowSkus (by decide)
  have hcons : PlanIsConsumption (some c) = false :=
    any_eqFold_false_of_highFold hm hh consumptionSkus (by decide)
  have hflex : PlanIsFlexConsumption (some c) = false :=
    any_eqFold_false_of_highFold hm hh flexConsumptionSkus (by decide)
  have helas : PlanIsElastic (some c) = false :=
    any_eqFold_false_of_highFold hm hh elasticSkus (by decide)
  have hiso : PlanIsIsolated (some c) = false :=
    any_eqFold_false_of_highFold hm hh isolatedSkus (by decide)
  have happ : PlanIsAppPlan (some c) = false :=
    any_eqFold_false_of_highFold hm hh appServicePlanSkus (by decide)
  unfold PlanTypeFromSku
  simp [hprem, hwork, hcons, hflex, helas, hiso, happ]

lemma splitSlash_cons_slash (ys : List Char) :
    splitSlash ('/' :: ys) = [] :: splitSlash ys := by
  simp [splitSlash]

lemma splitSlash_append (xs ys : List Char) (h : '/' ∉ xs) :
    splitSlash (xs ++ '/' :: ys) = xs :: splitSlash ys := by
  induction xs with
  | nil => simpa using splitSlash_cons_slash ys
  | cons c cs ih =>
    have hc : c ≠ '/' := fun he => h (by simp [he])
    have hcs : '/' ∉ cs := fun hm => h (List.mem_cons_of_mem _ hm)
    show splitSlash (c :: (cs ++ '/' :: ys)) = (c :: cs) :: splitSlash ys
    rw [splitSlash, if_neg hc, ih hcs]

lemma splitSlash_noSlash (xs : List Char) (h : '/' ∉ xs) :
    splitSlash xs = [xs] := by
  induction xs with
  | nil => rfl
  | cons c cs ih =>
    have hc : c ≠ '/' := fun he => h (by simp [he])
    have hcs : '/' ∉ cs := fun hm => h (List.mem_cons_of_mem _ hm)
    simp only [splitSlash, if_neg hc, ih hcs]

lemma splitSlash_joinSegs (x : List Char) (xs : List (List Char))
    (hx : '/' ∉ x) (hxs : ∀ y ∈ xs, '/' ∉ y) :
    splitSlash (joinSegs (x :: xs)) = x :: xs := by
  induction xs generalizing x with
  | nil => exact splitSlash_noSlash x hx
  | cons y ys ih =>
    have hy : '/' ∉ y := hxs y (by simp)
    have hys : ∀ z ∈ ys, '/' ∉ z := fun z hz => hxs z (by simp [hz])
    calc splitSlash (joinSegs (x :: y :: ys))
        = splitSlash (x ++ '/' :: joinSegs (y :: ys)) := rfl
      _ = x :: splitSlash (joinSegs (y :: ys)) := splitSlash_append _ _ hx
      _ = x :: y :: ys := by rw [ih y hy hys]

lemma mk_ne_empty_of_ne_nil {l : List Char} (h : l ≠ []) :
    String.mk l ≠ "" := by
  intro he
  exact h ((string_eq_empty_iff (String.mk l)).mp he)

lemma data_ne_nil_of_ne_empty {s : String} (h : s ≠ "") : s.data ≠ [] :=
  fun he => h ((string_eq_empty_iff s).mpr he)

lemma eqFoldL_self (a : List Char) : eqFoldL a a = true := by
  simp [eqFoldL]

/-- Successful parsing inverts: the path split into exactly the eleven
expected segments, the keyword checks passed, the value segments are
non-empty, and the identifier's fields are exactly those value segments. -/
lemma parseSegs_some_inv {segs : List (List Char)} {tid : TopicId}
    (h : parseSegs segs = some tid) :
    ∃ root kSub sub kRg rg kProv prov kNs ns kTop top,
      segs = [root, kSub, sub, kRg, rg, kProv, prov, kNs, ns, kTop, top] ∧
      (root = [] ∧
        eqFoldL kSub "subscriptions".data = true ∧ sub ≠ [] ∧
        eqFoldL kRg "resourceGroups".data = true ∧ rg ≠ [] ∧
        eqFoldL kProv "providers".data = true ∧
        eqFoldL prov "Microsoft.ServiceBus".data = true ∧
        eqFoldL kNs "namespaces".data = true ∧ ns ≠ [] ∧
        eqFoldL kTop "topics".data = true ∧ top ≠ []) ∧
      tid = ⟨String.mk sub, String.mk rg, String.mk ns, String.mk top⟩ := by
  unfold parseSegs at h
  split at h
  · next root kSub sub kRg rg kProv prov kNs ns kTop top =>
    split at h
    · next hc =>
      refine ⟨root, kSub, sub, kRg, rg, kProv, prov, kNs, ns, kTop, top,
        rfl, hc, ?_⟩
      exact (Option.some.inj h).symm
    · exact absurd h (by simp)
  · exact absurd h (by simp)

/-- A successfully parsed identifier never carries an empty subscription
segment. -/
lemma parseTopicID_subscription_ne_empty {P : String} {tid : TopicId}
    (h : parseTopicID P = some tid) : tid.subscriptionId ≠ "" := by
  obtain ⟨root, kSub, sub, kRg, rg, kProv, prov, kNs, ns, kTop, top,
    hsegs, hc, htid⟩ := parseSegs_some_inv h
  subst htid
  exact mk_ne_empty_of_ne_nil hc.2.2.1

/-- Parsing the canonical formatting of a well-formed identifier returns
that identifier. -/
lemma parseTopicID_formatTopicID {t : TopicId} (h : wfTopicId t) :
    parseTopicID (formatTopicID t) = some t := by
  obtain ⟨h1, h2, h3, h4, h5, h6, h7, h8⟩ := h
  unfold parseTopicID formatTopicID
  rw [show (String.mk (joinSegs
      [[], "subscriptions".data, t.subscriptionId.data,
       "resourceGroups".data, t.resourceGroupName.data,
       "providers".data, "Microsoft.ServiceBus".data,
       "namespaces".data, t.namespaceName.data,
       "topics".data, t.topicName.data])).data = joinSegs
      [[], "subscriptions".data, t.subscriptionId.data,
       "resourceGroups".data, t.resourceGroupName.data,
       "providers".data, "Microsoft.ServiceBus".data,
       "namespaces".data, t.namespaceName.data,
       "topics".data, t.topicName.data] from rfl]
  rw [splitSlash_joinSegs _ _ (by simp) ?hseg]
  case hseg =>
    intro y hy
    simp only [List.mem_cons, List.not_mem_nil, or_false] at hy
    rcases hy with hy | hy | hy | hy | hy | hy | hy | hy | hy | hy
    all_goals subst hy
    · decide
    · exact h2
    · decide
    · exact h4
    · decide
    · decide
    · decide
    · exact h6
    · decide
    · exact h8
  show (if ([] : List Char) = [] ∧
      eqFoldL "subscriptions".data "subscriptions".data = true ∧
      t.subscriptionId.data ≠ [] ∧
      eqFoldL "resourceGroups".data "resourceGroups".data = true ∧
      t.resourceGroupName.data ≠ [] ∧
      eqFoldL "providers".data "providers".data = true ∧
      eqFoldL "Microsoft.ServiceBus".data "Microsoft.ServiceBus".data = true ∧
      eqFoldL "namespaces".data "namespaces".data = true ∧
      t.namespaceName.data ≠ [] ∧
      eqFoldL "topics".data "topics".data = true ∧
      t.topicName.data ≠ [] then
    some (⟨String.mk t.subscriptionId.data, String.mk t.resourceGroupName.data,
      String.mk t.namespaceName.data, String.mk t.topicName.data⟩ : TopicId)
  else none) = some t
  rw [if_pos ⟨rfl, eqFoldL_self _, data_ne_nil_of_ne_empty h1,
    eqFoldL_self _, data_ne_nil_of_ne_empty h3,
    eqFoldL_self _, eqFoldL_self _,
    eqFoldL_self _, data_ne_nil_of_ne_empty h5,
    eqFoldL_self _, data_ne_nil_of_ne_empty h7⟩]

/-- A successful parse implies the spec's structural validity of the path. -/
lemma parseTopicID_some_structValid {P : String} {tid : TopicId}
    (h : parseTopicID P = some tid) : structValidSpec P := by
  obtain ⟨root, kSub, sub, kRg, rg, kProv, prov, kNs, ns, kTop, top,
    hsegs, hc, htid⟩ := parseSegs_some_inv h
  unfold structValidSpec
  rw [hsegs]
  obtain ⟨c1, c2, c3, c4, c5, c6, c7, c8, c9, c10, c11⟩ := hc
  exact ⟨rfl, c1, c2, c3, c4, c5, c6, c7, c8, c9, c10, c11⟩

/-! ## Claim theorems -/

/-- C1: against the claim, when `topic_id` is empty the read never consults
the discrete legacy fields: the resolved triple for the Get identifier is
made of empty strings, not of the supplied `resource_group_name`,
`namespace_name` and `topic_name` values. The fallback that reads the
discrete fields sits inside the non-empty-`topic_id` branch behind an
unsatisfiable guard and is dead code. -/
theorem topicIdAbsent_discreteFields_unused :
    resolveSubscriptionTopic false "" "group1" "ns1" "topic1" =
      .ok ("", "", "") ∧
    resolveSubscriptionTopic false "" "group1" "ns1" "topic1" ≠
      .ok ("group1", "ns1", "topic1") :=
  ⟨rfl, fun h => absurd (Except.ok.inj h) (by decide)⟩

/-- C2: whenever the composite `topic_id` parses, the resolved resource
group, namespace and topic names are exactly the ones decomposed from it;
the separately supplied discrete field values are discarded. -/
theorem compositeTopicId_wins (fivePointOh : Bool)
    (raw rgField nsField topicNameField : String) (tid : TopicId)
    (h : parseTopicID raw = some tid) :
    resolveSubscriptionTopic fivePointOh raw rgField nsField topicNameField =
      .ok (tid.resourceGroupName, tid.namespaceName, tid.topicName) := by
  have hraw : raw ≠ "" := by
    intro he
    subst he
    rw [show parseTopicID "" = none from rfl] at h
    cases h
  have hsub := parseTopicID_subscription_ne_empty h
  unfold resolveSubscriptionTopic
  rw [if_pos hraw, h]
  show (if ¬fivePointOh ∧ tid.subscriptionId = "" then
      Except.ok (rgField, nsField, topicNameField)
    else Except.ok (tid.resourceGroupName, tid.namespaceName, tid.topicName)) =
    Except.ok (tid.resourceGroupName, tid.namespaceName, tid.topicName)
  rw [if_neg (fun hcon => hsub hcon.2)]

/-- C2 witness: the spec's scenario, a composite identifier naming
namespace "ns-a" against a discrete field saying "ns-b". -/
theorem compositeTopicId_wins_witness :
    parseTopicID "/subscriptions/sub1/resourceGroups/group1/providers/Microsoft.ServiceBus/namespaces/ns-a/topics/topic1" =
      some ⟨"sub1", "group1", "ns-a", "topic1"⟩ ∧
    resolveSubscriptionTopic false
      "/subscriptions/sub1/resourceGroups/group1/providers/Microsoft.ServiceBus/namespaces/ns-a/topics/topic1"
      "group2" "ns-b" "topic2" = .ok ("group1", "ns-a", "topic1") :=
  ⟨by decide,
   compositeTopicId_wins false _ "group2" "ns-b" "topic2"
     ⟨"sub1", "group1", "ns-a", "topic1"⟩ (by decide)⟩

/-- C3 counterexample: "F1" sits in the free table (and among all known
SKUs) yet `PlanTypeFromSku` classifies it "unknown". -/
theorem freeSku_unknown_cex :
    "F1" ∈ freeSkus ∧ "F1" ∈ AllKnownServicePlanSkus ∧
      PlanTypeFromSku "F1" = "unknown" := by
  refine ⟨by decide, by decide, by decide⟩

/-- C3 (amended): every code in one of the seven tables `PlanTypeFromSku`
consults (premium, workflow, consumption, flex-consumption, elastic,
isolated, app) classifies to a category other than "unknown", but the free
and shared tables are never consulted: "F1", "D1" and "SHARED" all return
"unknown". -/
theorem planTypeFromSku_table_coverage :
    (∀ c ∈ premiumSkus ++ workflowSkus ++ consumptionSkus ++
        flexConsumptionSkus ++ elasticSkus ++ isolatedSkus ++ appServicePlanSkus,
      PlanTypeFromSku c ≠ "unknown")
    ∧ PlanTypeFromSku "F1" = "unknown"
    ∧ PlanTypeFromSku "D1" = "unknown"
    ∧ PlanTypeFromSku "SHARED" = "unknown" := by
  refine ⟨by decide, by decide, by decide, by decide⟩

/-- C4: `PlanTypeFromSku` equals first-match evaluation of the ordered
(predicate, category) list premium, workflow, consumption,
flex-consumption, elastic, isolated, app, falling through to "unknown". -/
theorem planTypeFromSku_firstMatch_order :
    ∀ input : String, PlanTypeFromSku input = firstMatch categoryChecks input :=
  fun _ => rfl

/-- C5: `PlanSupportsScaleOut` is true exactly when the raw code carries a
leading "EP" or "WS" token, independently of classification: "EP2" and the
unclassified "EPZ9" both support scale-out. -/
theorem scaleOut_raw_token :
    (∀ plan : String,
      PlanSupportsScaleOut plan = true ↔
        ∃ rest : String, plan = "EP" ++ rest ∨ plan = "WS" ++ rest)
    ∧ PlanSupportsScaleOut "EP2" = true
    ∧ PlanTypeFromSku "EPZ9" = "unknown" ∧ PlanSupportsScaleOut "EPZ9" = true := by
  refine ⟨?_, by decide, by decide, by decide⟩
  intro plan
  unfold PlanSupportsScaleOut hasPrefix
  rw [Bool.or_eq_true]
  constructor
  · rintro (hp | hp)
    · obtain ⟨t, ht⟩ := List.isPrefixOf_iff_prefix.mp hp
      exact ⟨String.mk t,
        Or.inl (String.ext (by rw [String.data_append]; exact ht.symm))⟩
    · obtain ⟨t, ht⟩ := List.isPrefixOf_iff_prefix.mp hp
      exact ⟨String.mk t,
        Or.inr (String.ext (by rw [String.data_append]; exact ht.symm))⟩
  · rintro ⟨r, h | h⟩ <;> subst h
    · exact Or.inl (List.isPrefixOf_iff_prefix.mpr
        ⟨r.data, by rw [String.data_append]⟩)
    · exact Or.inr (List.isPrefixOf_iff_prefix.mpr
        ⟨r.data, by rw [String.data_append]⟩)

/-- C6: every code of the premium table classifies premium and supports
zone balancing. -/
theorem premium_class_and_zoneBalancing :
    ∀ c ∈ premiumSkus,
      PlanTypeFromSku c = ServicePlanTypePremium ∧
        PlanSupportsZoneBalancing c = true := by
  decide

/-- C6 witness at the table's first entry "P1v2". -/
theorem premium_class_and_zoneBalancing_witness :
    PlanTypeFromSku "P1v2" = ServicePlanTypePremium ∧
      PlanSupportsZoneBalancing "P1v2" = true :=
  premium_class_and_zoneBalancing "P1v2" (by decide)

/-- C7: classification is case-insensitive up to ASCII/Unicode simple case
folding. Codes whose canonical folds agree classify identically, where the
fold canonicalizes every fold orbit that meets ASCII (ASCII letters,
U+017F, U+212A — the only Unicode code points that simple-fold into
ASCII); and any code holding a character whose fold stays outside ASCII
classifies "unknown". Case-variant pairs differing only in orbits disjoint
from ASCII each contain such a character, so together the two parts cover
every ASCII/Unicode case-folding variant pair. -/
theorem planTypeFromSku_caseInsensitive :
    (∀ c c' : String, foldStr c = foldStr c' →
      PlanTypeFromSku c = PlanTypeFromSku c')
    ∧ (∀ c : String, (∃ ch ∈ c.data, 128 ≤ (foldChar ch).toNat) →
      PlanTypeFromSku c = "unknown") := by
  constructor
  · exact fun c c' h => planTypeFromSku_congr h
  · rintro c ⟨ch, hm, hh⟩
    exact planTypeFromSku_unknown_of_highFold hm hh

/-- C7 witness: "p1V2" is a case variant of "P1v2" and classifies the
same, and the Unicode variant of "WS1" written with U+017F LONG S in place
of S classifies workflow exactly like "WS1" does. -/
theorem planTypeFromSku_caseInsensitive_witness :
    (foldStr "p1V2" = foldStr "P1v2" ∧
      PlanTypeFromSku "p1V2" = PlanTypeFromSku "P1v2") ∧
    (foldStr (String.mk ['W', Char.ofNat 0x17F, '1']) = foldStr "WS1" ∧
      PlanTypeFromSku (String.mk ['W', Char.ofNat 0x17F, '1']) =
        PlanTypeFromSku "WS1" ∧
      PlanTypeFromSku "WS1" = ServicePlanTypeWorkflow) :=
  ⟨⟨by decide, planTypeFromSku_caseInsensitive.1 "p1V2" "P1v2" (by decide)⟩,
   ⟨by decide,
    planTypeFromSku_caseInsensitive.1 _ "WS1" (by decide),
    by decide⟩⟩

/-- C8: the identifier codec round-trips — parsing the canonical formatting
of a well-formed identifier returns it unchanged, fields (and their case)
preserved — and parsing succeeds only on structurally valid paths: a path
with the wrong segment count, a wrong keyword or an empty value segment
parses to nothing, with no partial result. -/
theorem topicId_codec_roundTrip_and_malformed :
    (∀ t : TopicId, wfTopicId t → parseTopicID (formatTopicID t) = some t)
    ∧ (∀ P : String, ¬ structValidSpec P → parseTopicID P = none) := by
  constructor
  · exact fun t h => parseTopicID_formatTopicID h
  · intro P h
    cases hp : parseTopicID P with
    | none => rfl
    | some tid => exact absurd (parseTopicID_some_structValid hp) h

/-- C8 witness: a concrete identifier round-trips, and a truncated path is
rejected. -/
theorem topicId_codec_witness :
    parseTopicID (formatTopicID ⟨"sub1", "group1", "ns-a", "topic1"⟩) =
      some ⟨"sub1", "group1", "ns-a", "topic1"⟩ ∧
    parseTopicID "/subscriptions/sub1/resourceGroups/group1" = none :=
  ⟨topicId_codec_roundTrip_and_malformed.1 _ (by decide),
   topicId_codec_roundTrip_and_malformed.2 _ (by decide)⟩

/-- C9: lower-case elastic and workflow codes still classify (membership is
case-insensitive) but fail the case-sensitive "EP"/"WS" prefix test of
`PlanSupportsScaleOut`. -/
theorem lowercase_class_but_no_scaleOut :
    PlanTypeFromSku "ep1" = ServicePlanTypeElastic ∧
    PlanTypeFromSku "ws2" = ServicePlanTypeWorkflow ∧
    PlanSupportsScaleOut "ep1" = false ∧
    PlanSupportsScaleOut "ws2" = false := by
  refine ⟨by decide, by decide, by decide, by decide⟩

/-- C10: the Purview account read treats a not-found retrieval as success,
clearing the stored ID and returning no error; any other failure (stored-ID
parse failure, other Get error, ListKeys error) returns an error and leaves
the stored ID unchanged. -/
theorem purviewRead_notFound_clears_id :
    ∀ (storedId : String) (lk : Bool),
      resourcePurviewAccountRead storedId true .errNotFound lk = ("", false) ∧
      resourcePurviewAccountRead storedId true .errOther lk = (storedId, true) ∧
      resourcePurviewAccountRead storedId true .ok false = (storedId, true) ∧
      (∀ g : FetchOutcome,
        resourcePurviewAccountRead storedId false g lk = (storedId, true)) :=
  fun _ _ => ⟨rfl, rfl, rfl, fun _ => rfl⟩

end AzureRM
